import Mathlib

/-!
Verification of the h5py error-stack binding (`h5py/h5e.pyx`) and of the
spec's hierarchical storage-engine design, as a shallow embedding in Lean.

The first half embeds the code of `h5e.pyx`: the major/minor/exact error
tables, `ErrorStackElement.desc`, `ErrorStack.get_exc_msg`,
`ErrorStack.__str__`, `err_callback` and `register_thread`.  The second half
models the storage engine (groups, attributes, chunked datasets, filter
pipeline), which the repository only declares, from the spec.
-/

set_option autoImplicit false

namespace H5E

/-- Major error codes (`H5E_major_t`), the keys of `_major_table` in
`h5e.pyx`, plus `H5E_NONE_MAJOR` for a code outside the table.  The source
constant `H5E_IO` is spelled `H5E_IO_MAJOR` here. -/
inductive Major where
  | H5E_NONE_MAJOR
  | H5E_ARGS
  | H5E_RESOURCE
  | H5E_INTERNAL
  | H5E_FILE
  | H5E_IO_MAJOR
  | H5E_FUNC
  | H5E_ATOM
  | H5E_CACHE
  | H5E_BTREE
  | H5E_SYM
  | H5E_HEAP
  | H5E_OHDR
  | H5E_DATATYPE
  | H5E_DATASPACE
  | H5E_DATASET
  | H5E_STORAGE
  | H5E_PLIST
  | H5E_ATTR
  | H5E_PLINE
  | H5E_EFL
  | H5E_REFERENCE
  | H5E_VFL
  | H5E_TST
  | H5E_RS
  | H5E_ERROR
  | H5E_SLIST
  deriving DecidableEq, Repr

/-- Minor error codes (`H5E_minor_t`) appearing in `_minor_table` and
`_exact_table` in `h5e.pyx`, plus `H5E_NONE_MINOR` for a code outside both. -/
inductive Minor where
  | H5E_NONE_MINOR
  | H5E_SEEKERROR
  | H5E_READERROR
  | H5E_WRITEERROR
  | H5E_CLOSEERROR
  | H5E_OVERFLOW
  | H5E_FCNTL
  | H5E_NOFILTER
  | H5E_CALLBACK
  | H5E_CANAPPLY
  | H5E_SETLOCAL
  | H5E_NOENCODER
  | H5E_FILEEXISTS
  | H5E_FILEOPEN
  | H5E_NOTHDF5
  | H5E_BADFILE
  | H5E_BADATOM
  | H5E_BADGROUP
  | H5E_BADSELECT
  | H5E_UNINITIALIZED
  | H5E_UNSUPPORTED
  | H5E_NOTFOUND
  | H5E_CANTINSERT
  | H5E_BADTYPE
  | H5E_BADRANGE
  | H5E_BADVALUE
  | H5E_EXISTS
  | H5E_CANTCONVERT
  | H5E_CANTINIT
  | H5E_SYSERRSTR
  deriving DecidableEq, Repr

/-- Major-code exception classes of `h5e.pyx` (the subclasses of `H5Error`,
with `H5Error` itself the default of `_major_table.get(major, H5Error)`). -/
inductive MajorExc where
  | H5Error
  | ArgsError
  | ResourceError
  | InternalError
  | FileError
  | LowLevelIOError
  | FuncError
  | AtomError
  | CacheError
  | BtreeError
  | SymbolError
  | HeapError
  | ObjectHeaderError
  | DatatypeError
  | DataspaceError
  | DatasetError
  | StorageError
  | PropertyError
  | AttrError
  | FilterError
  | FileListError
  | RefError
  | VirtualFileError
  | TSTError
  | RSError
  | ErrorError
  | SkipListError
  deriving DecidableEq, Repr

/-- Python built-in exception classes used as minor-code refinements in
`_minor_table` and `_exact_table`, plus `RuntimeError` used by
`err_callback`. -/
inductive PyBuiltin where
  | IOError
  | ValueError
  | NotImplementedError
  | KeyError
  | TypeError
  | RuntimeError
  deriving DecidableEq, Repr

/-- Exception class produced by error classification: either a major class
alone, a dynamically generated class carrying a major class and a built-in
refinement, or a bare built-in (only `RuntimeError`, from `err_callback`). -/
inductive ExcClass where
  | major (m : MajorExc)
  | composed (m : MajorExc) (b : PyBuiltin)
  | builtin (b : PyBuiltin)
  deriving DecidableEq, Repr

/-- Modelled from the spec: `_stub.generate_class(maj_class, min_class)`
(module `_stub` is not under `src/`) synthesizes a class descending from both
arguments; per the spec the composed `ErrorKind` carries both tags. -/
def generate_class (maj : MajorExc) (min : PyBuiltin) : ExcClass :=
  ExcClass.composed maj min

/-- Embedding of the `cdef dict _major_table` of `h5e.pyx`: traditional major
error classes. -/
def major_table : Major → Option MajorExc
  | .H5E_ARGS => some .ArgsError
  | .H5E_RESOURCE => some .ResourceError
  | .H5E_INTERNAL => some .InternalError
  | .H5E_FILE => some .FileError
  | .H5E_IO_MAJOR => some .LowLevelIOError
  | .H5E_FUNC => some .FuncError
  | .H5E_ATOM => some .AtomError
  | .H5E_CACHE => some .CacheError
  | .H5E_BTREE => some .BtreeError
  | .H5E_SYM => some .SymbolError
  | .H5E_HEAP => some .HeapError
  | .H5E_OHDR => some .ObjectHeaderError
  | .H5E_DATATYPE => some .DatatypeError
  | .H5E_DATASPACE => some .DataspaceError
  | .H5E_DATASET => some .DatasetError
  | .H5E_STORAGE => some .StorageError
  | .H5E_PLIST => some .PropertyError
  | .H5E_ATTR => some .AttrError
  | .H5E_PLINE => some .FilterError
  | .H5E_EFL => some .FileListError
  | .H5E_REFERENCE => some .RefError
  | .H5E_VFL => some .VirtualFileError
  | .H5E_TST => some .TSTError
  | .H5E_RS => some .RSError
  | .H5E_ERROR => some .ErrorError
  | .H5E_SLIST => some .SkipListError
  | .H5E_NONE_MAJOR => none

/-- Embedding of the `cdef dict _minor_table` of `h5e.pyx`: Python-style
minor error classes. -/
def minor_table : Minor → Option PyBuiltin
  | .H5E_SEEKERROR => some .IOError
  | .H5E_READERROR => some .IOError
  | .H5E_WRITEERROR => some .IOError
  | .H5E_CLOSEERROR => some .IOError
  | .H5E_OVERFLOW => some .IOError
  | .H5E_FCNTL => some .IOError
  | .H5E_NOFILTER => some .IOError
  | .H5E_CALLBACK => some .IOError
  | .H5E_CANAPPLY => some .IOError
  | .H5E_SETLOCAL => some .IOError
  | .H5E_NOENCODER => some .IOError
  | .H5E_FILEEXISTS => some .ValueError
  | .H5E_FILEOPEN => some .ValueError
  | .H5E_NOTHDF5 => some .ValueError
  | .H5E_BADFILE => some .ValueError
  | .H5E_BADATOM => some .ValueError
  | .H5E_BADGROUP => some .ValueError
  | .H5E_BADSELECT => some .ValueError
  | .H5E_UNINITIALIZED => some .ValueError
  | .H5E_UNSUPPORTED => some .NotImplementedError
  | .H5E_NOTFOUND => some .KeyError
  | .H5E_CANTINSERT => some .ValueError
  | .H5E_BADTYPE => some .TypeError
  | .H5E_BADRANGE => some .ValueError
  | .H5E_BADVALUE => some .ValueError
  | .H5E_EXISTS => some .ValueError
  | .H5E_CANTCONVERT => some .TypeError
  | .H5E_CANTINIT => none
  | .H5E_SYSERRSTR => none
  | .H5E_NONE_MINOR => none

/-- Embedding of the `cdef dict _exact_table` of `h5e.pyx`: the fudge table
keyed by `(major, minor)` pairs, overriding the minor table. -/
def exact_table : Major → Minor → Option PyBuiltin
  | .H5E_CACHE, .H5E_BADVALUE => some .IOError
  | .H5E_RESOURCE, .H5E_CANTINIT => some .IOError
  | .H5E_INTERNAL, .H5E_SYSERRSTR => some .IOError
  | _, _ => none

/-- Embedding of the `H5E_error_t` struct fields used by `h5e.pyx`: major
code, minor code, failing C function name, and the raw description text. -/
structure H5E_error_t where
  maj_num : Major
  min_num : Minor
  func_name : String
  desc : String
  deriving DecidableEq, Repr

/-- Semantics of Python `str.capitalize()` for ASCII text: the first
character is uppercased and every remaining character is lowercased. -/
def pyCapitalize (s : String) : String :=
  match s.data with
  | [] => ""
  | c :: rest => String.mk (c.toUpper :: rest.map Char.toLower)

/-- Embedding of the `desc` property of `ErrorStackElement`: returns
`self.e.desc.capitalize()`, not the raw description. -/
def ErrorStackElement.desc (e : H5E_error_t) : String :=
  pyCapitalize e.desc

/-- Models the external HDF5 lookup `H5Eget_major`: the library's fixed
description string for a major error code. -/
def H5Eget_major : Major → String
  | .H5E_NONE_MAJOR => "No error"
  | .H5E_ARGS => "Invalid arguments to routine"
  | .H5E_RESOURCE => "Resource unavailable"
  | .H5E_INTERNAL => "Internal error (too specific to document in detail)"
  | .H5E_FILE => "File accessability"
  | .H5E_IO_MAJOR => "Low-level I/O"
  | .H5E_FUNC => "Function entry/exit"
  | .H5E_ATOM => "Object atom"
  | .H5E_CACHE => "Object cache"
  | .H5E_BTREE => "B-Tree node"
  | .H5E_SYM => "Symbol table"
  | .H5E_HEAP => "Heap"
  | .H5E_OHDR => "Object header"
  | .H5E_DATATYPE => "Datatype"
  | .H5E_DATASPACE => "Dataspace"
  | .H5E_DATASET => "Dataset"
  | .H5E_STORAGE => "Data storage"
  | .H5E_PLIST => "Property lists"
  | .H5E_ATTR => "Attribute"
  | .H5E_PLINE => "Data filters"
  | .H5E_EFL => "External file list"
  | .H5E_REFERENCE => "References"
  | .H5E_VFL => "Virtual File Layer"
  | .H5E_TST => "Ternary Search Trees"
  | .H5E_RS => "Reference Counted Strings"
  | .H5E_ERROR => "Error API"
  | .H5E_SLIST => "Skip Lists"

/-- Models the external HDF5 lookup `H5Eget_minor`: the library's fixed
description string for a minor error code. -/
def H5Eget_minor : Minor → String
  | .H5E_NONE_MINOR => "No error"
  | .H5E_SEEKERROR => "Seek failed"
  | .H5E_READERROR => "Read failed"
  | .H5E_WRITEERROR => "Write failed"
  | .H5E_CLOSEERROR => "Close failed"
  | .H5E_OVERFLOW => "Address overflowed"
  | .H5E_FCNTL => "File control (fcntl) failed"
  | .H5E_NOFILTER => "Requested filter is not available"
  | .H5E_CALLBACK => "Callback failed"
  | .H5E_CANAPPLY => "Error from filter 'can apply' callback"
  | .H5E_SETLOCAL => "Error from filter 'set local' callback"
  | .H5E_NOENCODER => "Filter present but encoding disabled"
  | .H5E_FILEEXISTS => "File already exists"
  | .H5E_FILEOPEN => "File already open"
  | .H5E_NOTHDF5 => "Not an HDF5 file"
  | .H5E_BADFILE => "Bad file ID accessed"
  | .H5E_BADATOM => "Unable to find atom information (already closed?)"
  | .H5E_BADGROUP => "Unable to find ID group information"
  | .H5E_BADSELECT => "Invalid selection (hyperslabs)"
  | .H5E_UNINITIALIZED => "Information is uninitialized"
  | .H5E_UNSUPPORTED => "Feature is unsupported"
  | .H5E_NOTFOUND => "Object not found"
  | .H5E_CANTINSERT => "Unable to insert object"
  | .H5E_BADTYPE => "Inappropriate type"
  | .H5E_BADRANGE => "Out of range"
  | .H5E_BADVALUE => "Bad value"
  | .H5E_EXISTS => "Object already exists"
  | .H5E_CANTCONVERT => "Can't convert datatypes"
  | .H5E_CANTINIT => "Unable to initialize object"
  | .H5E_SYSERRSTR => "System error message"

/-- Embedding of the `code_desc` property of `ErrorStackElement`: the
2-tuple of major and minor description strings. -/
def ErrorStackElement.code_desc (e : H5E_error_t) : String × String :=
  (H5Eget_major e.maj_num, H5Eget_minor e.min_num)

/-- Text the loop body of `ErrorStack.__str__` appends for the frame at
index `idx`: the line `    idx: "desc" at func_name` then the line
`        major_desc :: minor_desc`, each preceded by a newline. -/
def frameLine (idx : Nat) (el : H5E_error_t) : String :=
  "\n    " ++ toString idx ++ ": \"" ++ ErrorStackElement.desc el ++ "\" at " ++
    el.func_name ++ "\n        " ++ H5Eget_major el.maj_num ++ " :: " ++
    H5Eget_minor el.min_num

/-- Embedding of `ErrorStack.__str__`: the placeholder text on an empty
stack, otherwise the header followed by each frame's lines in list order. -/
def stackStr (stack : List H5E_error_t) : String :=
  if stack.length = 0 then "No HDF5 error recorded"
  else stack.enum.foldl (fun s p => s ++ frameLine p.1 p.2) "HDF5 Error Stack:"

/-- Embedding of `ErrorStack.get_exc_msg`: classifies the current error
condition from the first frame of the stack.  The module-global `_verbose`
flag is passed explicitly. -/
def get_exc_msg (verbose : Bool) (stack : List H5E_error_t) :
    Option (ExcClass × String) :=
  match stack with
  | [] => none
  | e0 :: _ =>
    let major := e0.maj_num
    let minor := e0.min_num
    let maj_class := (major_table major).getD MajorExc.H5Error
    let min_class :=
      match exact_table major minor with
      | some c => some c
      | none => minor_table minor
    let exc : ExcClass :=
      match min_class with
      | none => ExcClass.major maj_class
      | some m => generate_class maj_class m
    let msg := ErrorStackElement.desc e0 ++ " (" ++
      (ErrorStackElement.code_desc e0).1 ++ ": " ++
      (ErrorStackElement.code_desc e0).2 ++ ")"
    let msg := if verbose then msg ++ "\n" ++ stackStr stack else msg
    some (exc, msg)

/-- Embedding of `ErrorStack.__init__` together with `walk_cb`: walking the
thread's raw error stack with `H5E_WALK_UPWARD` visits frames in their
accumulation order (innermost first) and appends each (`stack += [element]`)
to the initially empty list. -/
def walk_upward (raw : List H5E_error_t) : List H5E_error_t :=
  raw.foldl (fun stack element => stack ++ [element]) []

/-- Modelled from the spec: `push_frame` of the Error Stack (the native
`H5E_push`, not under `src/`) appends a frame to the thread's raw stack;
frames accumulate innermost-first, so the innermost frame sits at the head. -/
def push_frame (raw : List H5E_error_t) (f : H5E_error_t) : List H5E_error_t :=
  raw ++ [f]

/-- Modelled from the spec: `current_stack` returns the accumulated frames
for the active failure — in this embedding, the list `ErrorStack.__init__`
builds by walking the raw stack upward. -/
def current_stack (raw : List H5E_error_t) : List H5E_error_t :=
  walk_upward raw

/-- Embedding of `err_callback`: builds an `ErrorStack` from the thread's
raw stack, asks `get_exc_msg` for the error condition, substitutes a
`RuntimeError` when none exists, sets the exception and returns 1. -/
def err_callback (verbose : Bool) (raw : List H5E_error_t) :
    (ExcClass × String) × Int :=
  let stack := walk_upward raw
  match get_exc_msg verbose stack with
  | none => ((ExcClass.builtin .RuntimeError, "No HDF5 exception information found"), 1)
  | some a => (a, 1)

/-- Identity of a registered automatic error callback. -/
inductive CallbackId where
  | hdf5_default
  | err_cb
  | custom (n : Nat)
  deriving DecidableEq, Repr

/-- Per-thread error-handling state: the installed automatic callback. -/
structure ThreadState where
  auto : CallbackId
  deriving DecidableEq, Repr

/-- Modelled from the spec: the external `H5Eset_auto` installs the given
callback as the calling thread's automatic error handler and reports
success (a non-negative return). -/
def H5Eset_auto (cb : CallbackId) (_st : ThreadState) : ThreadState × Int :=
  (⟨cb⟩, 0)

/-- Embedding of `register_thread`: installs `err_callback` via
`H5Eset_auto`, raising only when that call reports failure, and returns 0. -/
def register_thread (st : ThreadState) : Except String (ThreadState × Int) :=
  let r := H5Eset_auto CallbackId.err_cb st
  if r.2 < 0 then Except.error "Failed to register HDF5 exception callback"
  else Except.ok (r.1, 0)

/-- Thread state reached after `n` successive `register_thread` calls. -/
def register_iter : Nat → ThreadState → ThreadState
  | 0, st => st
  | n + 1, st =>
    match register_thread (register_iter n st) with
    | Except.ok (st', _) => st'
    | Except.error _ => register_iter n st

/-- Observable error reporting of a thread: what firing the installed
automatic callback produces on the given raw stack (`none` when the
installed callback is not `err_callback`). -/
def reportError (st : ThreadState) (verbose : Bool) (raw : List H5E_error_t) :
    Option ((ExcClass × String) × Int) :=
  match st.auto with
  | CallbackId.err_cb => some (err_callback verbose raw)
  | _ => none

/-- Message format stated by the spec for a classified error:
`"<description> (<major_desc>: <minor_desc>)"` built from the first frame. -/
def specMessage (e0 : H5E_error_t) : String :=
  ErrorStackElement.desc e0 ++ " (" ++ H5Eget_major e0.maj_num ++ ": " ++
    H5Eget_minor e0.min_num ++ ")"

/-- Trace format stated by the spec: per frame, the line
`idx: "desc" at function_name` followed by `major_desc :: minor_desc`,
rendered here by plain recursion with an explicit running index. -/
def specTraceLines : Nat → List H5E_error_t → String
  | _, [] => ""
  | idx, el :: rest =>
    "\n    " ++ toString idx ++ ": \"" ++ ErrorStackElement.desc el ++ "\" at " ++
      el.func_name ++ "\n        " ++ H5Eget_major el.maj_num ++ " :: " ++
      H5Eget_minor el.min_num ++ specTraceLines (idx + 1) rest

/-- Rendering the claim of outermost-first display describes: the trace
lines would present the internal (innermost-first) stack in reverse order. -/
def stackStrOutermost (stack : List H5E_error_t) : String :=
  if stack.length = 0 then "No HDF5 error recorded"
  else "HDF5 Error Stack:" ++ specTraceLines 0 stack.reverse

/-- Transformation the capitalization claim describes when read literally:
only the first character is uppercased and the rest is left unchanged. -/
def upperFirst (s : String) : String :=
  match s.data with
  | [] => ""
  | c :: rest => String.mk (c.toUpper :: rest)

/-- Concrete frame used by witnesses: a cache error with a bad-value minor
code, the first entry of the exact-match fudge table. -/
def cacheFrame : H5E_error_t :=
  ⟨Major.H5E_CACHE, Minor.H5E_BADVALUE, "H5C_insert_entry", "unable to insert entry"⟩

/-- Concrete frame used by witnesses: a symbol-table error whose minor code
has no entry in the minor table. -/
def symFrame : H5E_error_t :=
  ⟨Major.H5E_SYM, Minor.H5E_CANTINIT, "H5G_loc_find", "object not found"⟩

/-- Concrete frame used by witnesses: a dataset error with an
already-exists minor code, exercising the minor-table fallback. -/
def dsetFrame : H5E_error_t :=
  ⟨Major.H5E_DATASET, Minor.H5E_EXISTS, "H5D_create", "already exists"⟩

end H5E

namespace Engine

/-- Modelled from the spec: the broad `ErrorKind` categories of the error
taxonomy (§7); the repository contains no engine implementation under
`src/`, only declarations. -/
inductive Category where
  | Args
  | Resource
  | Internal
  | File
  | IOCategory
  | Atom
  | Cache
  | Btree
  | Symbol
  | Heap
  | ObjectHeader
  | Datatype
  | Dataspace
  | Dataset
  | Storage
  | Property
  | Attr
  | Filter
  | FileList
  | Reference
  | VirtualFile
  | Unclassified
  deriving DecidableEq, Repr

/-- Modelled from the spec: the cross-cutting refinement tags of the error
taxonomy (§7). -/
inductive Refinement where
  | IOFailure
  | NotFound
  | AlreadyExists
  | BadType
  | BadValue
  | Unsupported
  deriving DecidableEq, Repr

/-- Modelled from the spec: an `ErrorKind` is a category optionally refined
by a cross-cutting tag (§7, §4.1). -/
structure ErrorKind where
  category : Category
  refinement : Option Refinement
  deriving DecidableEq, Repr

/-- Byte buffer flowing through the filter pipeline and chunk storage. -/
abbrev Buf := List Nat

/-- Run-length groups of a buffer, innermost step of the DEFLATE-style
compressor model: maximal runs become `(count, value)` pairs. -/
def rleEncodePairs : Buf → List (Nat × Nat)
  | [] => []
  | x :: xs =>
    match rleEncodePairs xs with
    | [] => [(1, x)]
    | (n, y) :: rest => if x = y then (n + 1, y) :: rest else (1, x) :: (n, y) :: rest

/-- Expansion of run-length groups back into a buffer. -/
def rleDecodePairs : List (Nat × Nat) → Buf
  | [] => []
  | (n, v) :: rest => List.replicate n v ++ rleDecodePairs rest

/-- Serialization of run-length groups into a flat byte buffer. -/
def flattenPairs : List (Nat × Nat) → Buf
  | [] => []
  | (n, v) :: rest => n :: v :: flattenPairs rest

/-- Modelled from the spec: the DEFLATE-style compression filter's encode
direction — run-length groups serialized flat. -/
def rleEncode (b : Buf) : Buf :=
  flattenPairs (rleEncodePairs b)

/-- Modelled from the spec: the DEFLATE-style compression filter's decode
direction — parses `(count, value)` pairs and expands them, failing on a
truncated stream. -/
def rleDecode : Buf → Option Buf
  | [] => some []
  | [_] => none
  | n :: v :: rest => (rleDecode rest).map (fun t => List.replicate n v ++ t)

/-- Running Fletcher-style sums of a buffer, each folded modulo 65535. -/
def fletcherSums (b : Buf) : Nat × Nat :=
  b.foldl (fun s x => ((s.1 + x) % 65535, (s.2 + (s.1 + x) % 65535) % 65535)) (0, 0)

/-- Modelled from the spec: the 32-bit checksum the Fletcher32 filter
appends at write time and verifies at read time. -/
def fletcher32 (b : Buf) : Nat :=
  (fletcherSums b).2 * 65536 + (fletcherSums b).1

/-- Modelled from the spec: the byte-shuffle filter's encode direction for
element size `k` — byte `j` of element `i` moves to position `j*q + i`
(interleave re-ordering); buffers whose length is not a multiple of `k`
pass through unchanged. -/
def shuffleEncode (k : Nat) (b : Buf) : Buf :=
  if 0 < k ∧ b.length % k = 0 then
    (List.range b.length).map
      (fun s => b.getD ((s % (b.length / k)) * k + s / (b.length / k)) 0)
  else b

/-- Modelled from the spec: the byte-shuffle filter's decode direction,
the inverse interleave for element size `k`. -/
def shuffleDecode (k : Nat) (b : Buf) : Buf :=
  if 0 < k ∧ b.length % k = 0 then
    (List.range b.length).map
      (fun s => b.getD ((s % k) * (b.length / k) + s / k) 0)
  else b

/-- Modelled from the spec: the external SZIP-style compressor, governed by
a coding-mode mask and a max-pixels-per-block parameter; the spec fixes no
algorithm for it, so the model stores the parameters and length in a
header. -/
def szipEncode (mask ppb : Nat) (b : Buf) : Buf :=
  mask :: ppb :: b.length :: b

/-- Modelled from the spec: decode of the SZIP-style compressor, checking
the stored parameters and length. -/
def szipDecode (mask ppb : Nat) : Buf → Option Buf
  | m :: p :: n :: rest =>
    if m = mask ∧ p = ppb ∧ rest.length = n then some rest else none
  | _ => none

/-- Modelled from the spec: the built-in filters of the pipeline (§4.4):
no-op passthrough, DEFLATE-style compression, byte-shuffle, Fletcher32
checksum, and the external SZIP-style compressor. -/
inductive Filter where
  | passthrough
  | deflate (level : Nat)
  | shuffle (eltSize : Nat)
  | fletcher32
  | szip (mask : Nat) (pixelsPerBlock : Nat)
  deriving DecidableEq, Repr

/-- Encode direction of one built-in filter. -/
def filterEncode : Filter → Buf → Buf
  | .passthrough, b => b
  | .deflate _, b => rleEncode b
  | .shuffle k, b => shuffleEncode k b
  | .fletcher32, b => b ++ [fletcher32 b]
  | .szip mask ppb, b => szipEncode mask ppb b

/-- Decode direction of one built-in filter; `none` signals a decode
failure (for Fletcher32, a checksum mismatch — an I/O error). -/
def filterDecode : Filter → Buf → Option Buf
  | .passthrough, b => some b
  | .deflate _, b => rleDecode b
  | .shuffle k, b => some (shuffleDecode k b)
  | .fletcher32, b =>
    match b.getLast? with
    | none => none
    | some c => if fletcher32 b.dropLast = c then some b.dropLast else none
  | .szip mask ppb, b => szipDecode mask ppb b

/-- Modelled from the spec: a pipeline entry is a filter with a flag
marking it mandatory (decode failure is fatal) or optional (decode failure
falls back to raw passthrough). -/
structure PipelineEntry where
  filter : Filter
  mandatory : Bool
  deriving DecidableEq, Repr

/-- Decode step for one pipeline entry: an optional filter whose decode
fails degrades to raw passthrough; a mandatory one propagates the failure. -/
def entryDecode (e : PipelineEntry) (b : Buf) : Option Buf :=
  match filterDecode e.filter b with
  | some r => some r
  | none => if e.mandatory then none else some b

/-- Modelled from the spec: `apply_pipeline` encode direction — filters
applied in list order. -/
def pipelineEncode (fs : List PipelineEntry) (b : Buf) : Buf :=
  fs.foldl (fun acc e => filterEncode e.filter acc) b

/-- Modelled from the spec: pipeline decode direction — the inverses
applied in reverse list order. -/
def pipelineDecode : List PipelineEntry → Buf → Option Buf
  | [], b => some b
  | e :: rest, b => (pipelineDecode rest b).bind (entryDecode e)

/-- Modelled from the spec: a datatype descriptor (element encoding). -/
inductive DatatypeDesc where
  | int (bytes : Nat)
  | float (bytes : Nat)
  | fixedString (len : Nat)
  deriving DecidableEq, Repr

/-- Byte width of one element of the datatype: its size in bytes. -/
def typeSize : DatatypeDesc → Nat
  | .int bytes => bytes
  | .float bytes => bytes
  | .fixedString len => len

/-- Modelled from the spec: a dataspace descriptor — per-dimension current
size and optional maximum (`none` = unlimited). -/
structure DataspaceDesc where
  current_dims : List Nat
  max_dims : List (Option Nat)
  deriving DecidableEq, Repr

/-- Multi-dimensional coordinate or shape: one entry per axis. -/
abbrev Coord := List Nat

/-- Serialized bytes of one element; a well-formed element of a dataset has
length `typeSize dtype`. -/
abbrev Elem := List Nat

/-- All coordinates of the box `[0, dims_0) × ... × [0, dims_(r-1))` in
row-major order: the first axis varies slowest. -/
def boxCoords : List Nat → List Coord
  | [] => [[]]
  | n :: rest => (List.range n).flatMap (fun i => (boxCoords rest).map (fun c => i :: c))

/-- Row-major linear position of an offset inside a box of the given shape:
each axis contributes its offset times the product of the later extents. -/
def linearIndex : Coord → Coord → Nat
  | [], _ => 0
  | _, [] => 0
  | o :: os, _ :: ss => o * ss.prod + linearIndex os ss

/-- Modelled from the spec: `chunk_index(coord) = coord / chunk_shape`,
element-wise floor division, identifying the owning chunk. -/
def chunk_index (coord chunk_shape : Coord) : Coord :=
  List.zipWith (· / ·) coord chunk_shape

/-- Element-wise remainder: the coordinate's offset inside its owning
chunk. -/
def chunkOffset (coord chunk_shape : Coord) : Coord :=
  List.zipWith (· % ·) coord chunk_shape

/-- Serialization of a chunk's elements into its byte buffer, in order. -/
def flattenElems : List Elem → Buf
  | [] => []
  | e :: rest => e ++ flattenElems rest

/-- Deserialization of a chunk byte buffer into elements of byte width `w`. -/
def groupBytes (w : Nat) (b : Buf) : List Elem :=
  if _hcase : w = 0 ∨ b = [] then []
  else b.take w :: groupBytes w (b.drop w)
termination_by b.length
decreasing_by
  simp only [List.length_drop]
  push_neg at _hcase
  have hb : 0 < b.length := List.length_pos.mpr _hcase.2
  omega

/-- Well-formedness of a list of elements: every element has byte width
`w`. -/
def elemsWf (w : Nat) (es : List Elem) : Prop :=
  ∀ e ∈ es, e.length = w

/-- Modelled from the spec: a chunked dataset bound to its element datatype
and its dataspace (rank with per-axis current/max extents), with a declared
fill value, a fixed chunk shape (one extent per axis), a filter pipeline,
and the sparse store mapping a chunk index vector to its filtered on-disk
payload (`none` = unallocated). -/
structure Dataset where
  dtype : DatatypeDesc
  space : DataspaceDesc
  fill : Elem
  chunk_shape : Coord
  pipeline : List PipelineEntry
  chunks : Coord → Option Buf

/-- Modelled from the spec: a hyperslab selection — a starting coordinate
and a per-axis element count. -/
structure Selection where
  start : Coord
  count : Coord
  deriving DecidableEq, Repr

/-- Check that a selection fits the extent: same rank, and per axis
`start + count ≤ current_dim`. -/
def fitsExtent : Coord → Coord → Coord → Bool
  | [], [], [] => true
  | a :: as, c :: cs, d :: ds => decide (a + c ≤ d) && fitsExtent as cs ds
  | _, _, _ => false

/-- Modelled from the spec: the Dataspace-error guard of `read_range` and
`write_range` — the selection must lie within the dataspace's current
extent on every axis. -/
def withinExtent (space : DataspaceDesc) (sel : Selection) : Bool :=
  fitsExtent sel.start sel.count space.current_dims

/-- Per-axis region membership: `start ≤ p < start + count` on every axis,
false on a rank mismatch. -/
def coordInRegion : Coord → Coord → Coord → Bool
  | [], [], [] => true
  | a :: as, c :: cs, x :: xs =>
    (decide (a ≤ x) && decide (x < a + c)) && coordInRegion as cs xs
  | _, _, _ => false

/-- Membership of a coordinate in a selection's hyperslab. -/
def inSelection (sel : Selection) (p : Coord) : Bool :=
  coordInRegion sel.start sel.count p

/-- Row-major position of a selected coordinate inside the selection's data
buffer. -/
def selIndex (sel : Selection) (p : Coord) : Nat :=
  linearIndex (List.zipWith (· - ·) p sel.start) sel.count

/-- All coordinates of a selection's hyperslab, row-major. -/
def selCoords (sel : Selection) : List Coord :=
  (boxCoords sel.count).map (fun off => List.zipWith (· + ·) sel.start off)

/-- Logical elements of a chunk: fill values if the chunk is unallocated,
otherwise the stored payload decoded through the pipeline and split into
elements of the dataset's type width (`none` = decode failure). -/
def chunkElems (ds : Dataset) (ci : Coord) : Option (List Elem) :=
  match ds.chunks ci with
  | none => some (List.replicate ds.chunk_shape.prod ds.fill)
  | some enc => (pipelineDecode ds.pipeline enc).map (groupBytes (typeSize ds.dtype))

/-- Element at logical coordinate `p`, read through its owning chunk
`chunk_index p chunk_shape` at the row-major position of its offset. -/
def readElemAt (ds : Dataset) (p : Coord) : Option Elem :=
  (chunkElems ds (chunk_index p ds.chunk_shape)).map
    (fun es => es.getD (linearIndex (chunkOffset p ds.chunk_shape) ds.chunk_shape) ds.fill)

/-- Elements at a list of coordinates; `none` as soon as any chunk decode
fails. -/
def readCoords (ds : Dataset) : List Coord → Option (List Elem)
  | [] => some []
  | p :: ps =>
    match readElemAt ds p, readCoords ds ps with
    | some e, some es => some (e :: es)
    | _, _ => none

/-- Modelled from the spec: `read_range` — fails with a Dataspace error if
the selection lies outside the current extent, otherwise reads every
selected element row-major through the decoded chunks (fill values for
unallocated regions), failing with an I/O error on a chunk decode failure. -/
def read_range (ds : Dataset) (sel : Selection) : Except ErrorKind (List Elem) :=
  if withinExtent ds.space sel then
    match readCoords ds (selCoords sel) with
    | some es => Except.ok es
    | none => Except.error ⟨Category.IOCategory, some Refinement.IOFailure⟩
  else Except.error ⟨Category.Dataspace, none⟩

/-- Read-modify-write elements of the chunk at index vector `ci`: the old
decoded elements overwritten, at every offset whose absolute coordinate
falls in the selection, with the corresponding row-major element of the
written data. -/
def newChunkElems (ds : Dataset) (sel : Selection) (data : List Elem)
    (ci : Coord) (old : List Elem) : List Elem :=
  (boxCoords ds.chunk_shape).map (fun off =>
    if inSelection sel (List.zipWith (· + ·) (List.zipWith (· * ·) ci ds.chunk_shape) off)
    then data.getD
      (selIndex sel (List.zipWith (· + ·) (List.zipWith (· * ·) ci ds.chunk_shape) off))
      ds.fill
    else old.getD (linearIndex off ds.chunk_shape) ds.fill)

/-- One read-modify-write cycle on the chunk at index vector `ci`: decode
the existing payload (or initialize to fill values if unallocated),
overwrite the region intersecting the selection, re-encode the serialized
elements through the pipeline, persist into the store. -/
def rmwChunk (ds : Dataset) (sel : Selection) (data : List Elem)
    (store : Coord → Option Buf) (ci : Coord) : Option (Coord → Option Buf) :=
  let old :=
    match store ci with
    | none => some (List.replicate ds.chunk_shape.prod ds.fill)
    | some enc => (pipelineDecode ds.pipeline enc).map (groupBytes (typeSize ds.dtype))
  old.map (fun oldEs =>
    Function.update store ci
      (some (pipelineEncode ds.pipeline
        (flattenElems (newChunkElems ds sel data ci oldEs)))))

/-- Read-modify-write cycles over a list of chunk index vectors, threading
the chunk store; `none` as soon as any decode fails. -/
def rmwChunks (ds : Dataset) (sel : Selection) (data : List Elem) :
    List Coord → (Coord → Option Buf) → Option (Coord → Option Buf)
  | [], store => some store
  | ci :: cis, store => (rmwChunk ds sel data store ci).bind (rmwChunks ds sel data cis)

/-- Chunk index vectors intersecting a selection: the owning chunk of every
selected coordinate. -/
def affectedChunks (ds : Dataset) (sel : Selection) : List Coord :=
  (selCoords sel).map (fun p => chunk_index p ds.chunk_shape)

/-- Modelled from the spec: `write_range` — fails with a Dataspace error if
the target region exceeds the current extent, checks the row-major data
buffer matches the selection size, then read-modify-writes every
intersecting chunk through the pipeline. -/
def write_range (ds : Dataset) (sel : Selection) (data : List Elem) :
    Except ErrorKind Dataset :=
  if withinExtent ds.space sel then
    if data.length = sel.count.prod then
      match rmwChunks ds sel data (affectedChunks ds sel) ds.chunks with
      | some store => Except.ok { ds with chunks := store }
      | none => Except.error ⟨Category.IOCategory, some Refinement.IOFailure⟩
    else Except.error ⟨Category.Args, some Refinement.BadValue⟩
  else Except.error ⟨Category.Dataspace, none⟩

/-- Modelled from the spec: an object of the group hierarchy — a group with
named direct children, or a dataset bound to its type, dataspace and filter
pipeline. -/
inductive Obj where
  | group (children : List (String × Obj))
  | dataset (dtype : DatatypeDesc) (space : DataspaceDesc) (filters : List PipelineEntry)

/-- Association lookup of a direct child by name, first match wins. -/
def lookupChild : List (String × Obj) → String → Option Obj
  | [], _ => none
  | (k, v) :: rest, n => if k = n then some v else lookupChild rest n

/-- Modelled from the spec: `create_group(parent, name)` on the direct
children of a group — fails with a Symbol-table AlreadyExists error when
the name is already a direct child, otherwise links a fresh empty group. -/
def create_group (children : List (String × Obj)) (name : String) :
    Except ErrorKind (List (String × Obj)) :=
  if (children.map Prod.fst).contains name then
    Except.error ⟨Category.Symbol, some Refinement.AlreadyExists⟩
  else Except.ok (children ++ [(name, Obj.group [])])

/-- Modelled from the spec: `create_dataset(parent, name, type, dataspace,
filter_list)` on the direct children of a group — fails with a Symbol-table
AlreadyExists error when the name is already a direct child. -/
def create_dataset (children : List (String × Obj)) (name : String)
    (dtype : DatatypeDesc) (space : DataspaceDesc) (filters : List PipelineEntry) :
    Except ErrorKind (List (String × Obj)) :=
  if (children.map Prod.fst).contains name then
    Except.error ⟨Category.Symbol, some Refinement.AlreadyExists⟩
  else Except.ok (children ++ [(name, Obj.dataset dtype space filters)])

/-- Children of the parent after an attempted `create_group`: unchanged
when the call fails. -/
def attemptCreateGroup (children : List (String × Obj)) (name : String) :
    List (String × Obj) :=
  match create_group children name with
  | Except.ok c => c
  | Except.error _ => children

/-- Children of the parent after an attempted `create_dataset`: unchanged
when the call fails. -/
def attemptCreateDataset (children : List (String × Obj)) (name : String)
    (dtype : DatatypeDesc) (space : DataspaceDesc) (filters : List PipelineEntry) :
    List (String × Obj) :=
  match create_dataset children name dtype space filters with
  | Except.ok c => c
  | Except.error _ => children

/-- Modelled from the spec: a small scalar or array attribute value. -/
inductive AttrValue where
  | intVal (n : Int)
  | strVal (s : String)
  | arrVal (l : List Int)
  deriving DecidableEq, Repr

/-- Attribute lookup by name in the attribute view of a group or dataset. -/
def attr_get : List (String × AttrValue) → String → Option AttrValue
  | [], _ => none
  | (k, w) :: rest, n => if k = n then some w else attr_get rest n

/-- Modelled from the spec: attribute `set(name, value)` — overwrites an
existing attribute of that name in place, otherwise appends a new one;
never fails. -/
def attr_set (a : List (String × AttrValue)) (n : String) (v : AttrValue) :
    Except ErrorKind (List (String × AttrValue)) :=
  if (a.map Prod.fst).contains n then
    Except.ok (a.map fun p => if p.1 = n then (n, v) else p)
  else Except.ok (a ++ [(n, v)])

/-- Store invariant used by the round-trip law: every allocated chunk's
payload decodes through the pipeline into elements of the dataset's type
width. -/
def storeOk (ds : Dataset) (store : Coord → Option Buf) : Prop :=
  ∀ ci enc, store ci = some enc →
    ∃ es, (pipelineDecode ds.pipeline enc).map (groupBytes (typeSize ds.dtype)) = some es ∧
      elemsWf (typeSize ds.dtype) es

/-- Concrete fresh chunked dataset used by witnesses: a rank-2 dataspace of
extent 4×6, two-byte integer elements, chunk shape 2×3, every built-in
filter in the pipeline, nothing allocated. -/
def sampleDataset : Dataset where
  dtype := DatatypeDesc.int 2
  space := ⟨[4, 6], [some 4, some 6]⟩
  fill := [0, 0]
  chunk_shape := [2, 3]
  pipeline :=
    [⟨Filter.shuffle 2, true⟩, ⟨Filter.deflate 4, true⟩,
     ⟨Filter.fletcher32, false⟩, ⟨Filter.szip 5 16, true⟩]
  chunks := fun _ => none

/-- Concrete written data used by witnesses: six two-byte elements,
row-major over a 2×3 selection. -/
def sampleData : List Elem :=
  [[1, 2], [3, 4], [5, 6], [7, 8], [9, 10], [11, 12]]

/-- Concrete group children used by witnesses: one existing child "A". -/
def sampleChildren : List (String × Obj) :=
  [("A", Obj.group [])]

/-- Concrete attribute view used by witnesses. -/
def sampleAttrs : List (String × AttrValue) :=
  [("Name", AttrValue.strVal "My Dataset"), ("Frob Index", AttrValue.intVal 4)]

end Engine

-- ==== Theorems ====

namespace H5E

theorem foldl_snoc_eq {α : Type} (l acc : List α) :
    l.foldl (fun s e => s ++ [e]) acc = acc ++ l := by
  induction l generalizing acc with
  | nil => simp
  | cons x xs ih => simp [List.foldl_cons, ih]

theorem walk_upward_eq (raw : List H5E_error_t) : walk_upward raw = raw := by
  simpa [walk_upward] using foldl_snoc_eq raw []

theorem enumFrom_foldl_frameLine (l : List H5E_error_t) :
    ∀ (k : Nat) (acc : String),
      (l.enumFrom k).foldl (fun s p => s ++ frameLine p.1 p.2) acc =
        acc ++ specTraceLines k l := by
  induction l with
  | nil => intro k acc; simp [specTraceLines]
  | cons el rest ih =>
    intro k acc
    show List.foldl _ _ ((k, el) :: List.enumFrom (k + 1) rest) = _
    rw [List.foldl_cons, ih]
    simp only [specTraceLines, frameLine, String.append_assoc]

theorem stackStr_cons_eq (e0 : H5E_error_t) (rest : List H5E_error_t) :
    stackStr (e0 :: rest) = "HDF5 Error Stack:" ++ specTraceLines 0 (e0 :: rest) := by
  have h := enumFrom_foldl_frameLine (e0 :: rest) 0 "HDF5 Error Stack:"
  simpa [stackStr, List.enum] using h

/-- C2: `get_exc_msg` returns `None` exactly on an empty stack, and on a
non-empty stack it returns a classified `(ErrorKind, message)` pair. -/
theorem get_exc_msg_none_iff_empty (v : Bool) (stack : List H5E_error_t) :
    (get_exc_msg v stack = none ↔ stack = []) ∧
    (stack ≠ [] → ∃ exc msg, get_exc_msg v stack = some (exc, msg)) := by
  cases stack with
  | nil => simp [get_exc_msg]
  | cons e0 rest =>
    refine ⟨by simp [get_exc_msg], fun _ => ⟨_, _, rfl⟩⟩

/-- Witness for C2 at a concrete non-empty stack. -/
theorem get_exc_msg_none_iff_empty_witness :
    ∃ exc msg, get_exc_msg false [dsetFrame] = some (exc, msg) :=
  (get_exc_msg_none_iff_empty false [dsetFrame]).2 (by simp)

/-- C1: classification from the first frame resolves the kind by a
two-level lookup: an exact-table hit composes the major category with the
exact refinement regardless of the minor table; otherwise a minor-table hit
composes the major category with that refinement; otherwise the result is
the major category alone — and in every case the major category is
`_major_table.get(major, H5Error)`. -/
theorem get_exc_msg_two_level (v : Bool) (e0 : H5E_error_t)
    (rest : List H5E_error_t) :
    (∀ c, exact_table e0.maj_num e0.min_num = some c →
      (get_exc_msg v (e0 :: rest)).map Prod.fst =
        some (ExcClass.composed ((major_table e0.maj_num).getD MajorExc.H5Error) c)) ∧
    (exact_table e0.maj_num e0.min_num = none →
      (∀ c, minor_table e0.min_num = some c →
        (get_exc_msg v (e0 :: rest)).map Prod.fst =
          some (ExcClass.composed ((major_table e0.maj_num).getD MajorExc.H5Error) c)) ∧
      (minor_table e0.min_num = none →
        (get_exc_msg v (e0 :: rest)).map Prod.fst =
          some (ExcClass.major ((major_table e0.maj_num).getD MajorExc.H5Error)))) := by
  refine ⟨fun c hc => ?_, fun hnone => ⟨fun c hc => ?_, fun hm => ?_⟩⟩
  · simp [get_exc_msg, hc, generate_class]
  · simp [get_exc_msg, hnone, hc, generate_class]
  · simp [get_exc_msg, hnone, hm, generate_class]

/-- Witness for C1: the cache/bad-value frame hits the exact table and is
classified as a composed cache-category I/O-refined kind. -/
theorem get_exc_msg_two_level_witness :
    (get_exc_msg false [cacheFrame]).map Prod.fst =
      some (ExcClass.composed MajorExc.CacheError PyBuiltin.IOError) :=
  (get_exc_msg_two_level false cacheFrame []).1 PyBuiltin.IOError rfl

/-- C3: the classified message is exactly
`"<description> (<major_desc>: <minor_desc>)"` built from the first frame,
and with the verbose flag set the multi-frame trace — per frame the line
`idx: "desc" at function_name` then `major_desc :: minor_desc` — is
appended after a newline. -/
theorem get_exc_msg_message_format (e0 : H5E_error_t) (rest : List H5E_error_t) :
    (get_exc_msg false (e0 :: rest)).map Prod.snd = some (specMessage e0) ∧
    (get_exc_msg true (e0 :: rest)).map Prod.snd =
      some (specMessage e0 ++ "\n" ++
        ("HDF5 Error Stack:" ++ specTraceLines 0 (e0 :: rest))) := by
  constructor
  · simp [get_exc_msg, specMessage, ErrorStackElement.code_desc]
  · simp [get_exc_msg, stackStr_cons_eq, specMessage, ErrorStackElement.code_desc]

/-- C4 counterexample: on a concrete two-frame stack (internal order
innermost-first), the rendered trace is not the outermost-first rendering —
`__str__` presents frames in the internal order, not reversed. -/
theorem stackStr_not_outermost_first :
    stackStr [cacheFrame, symFrame] ≠ stackStrOutermost [cacheFrame, symFrame] := by
  decide

/-- C4 amended: for every sequence of pushed frames (pushed innermost
first), the internal order of `current_stack` is the accumulation order —
innermost/most-recent-call first — and the rendered multi-frame trace
presents the frames in that same internal order, not reversed. -/
theorem stack_order_internal (pushes : List H5E_error_t) :
    current_stack (pushes.foldl push_frame []) = pushes ∧
    (pushes ≠ [] →
      stackStr (current_stack (pushes.foldl push_frame [])) =
        "HDF5 Error Stack:" ++ specTraceLines 0 pushes) := by
  have hraw : pushes.foldl push_frame [] = pushes := by
    simpa [push_frame] using foldl_snoc_eq pushes []
  have hcur : current_stack (pushes.foldl push_frame []) = pushes := by
    rw [hraw, current_stack, walk_upward_eq]
  refine ⟨hcur, fun hne => ?_⟩
  rw [hcur]
  cases pushes with
  | nil => exact absurd rfl hne
  | cons e0 rest => exact stackStr_cons_eq e0 rest

/-- Witness for C4 amended at a concrete two-frame push sequence. -/
theorem stack_order_internal_witness :
    stackStr (current_stack (List.foldl push_frame [] [cacheFrame, symFrame])) =
      "HDF5 Error Stack:" ++ specTraceLines 0 [cacheFrame, symFrame] :=
  (stack_order_internal [cacheFrame, symFrame]).2 (by simp)

/-- C5: registering the thread's error callback is idempotent — after any
positive number of `register_thread` calls the state equals the state after
one call, every repeat call succeeds returning 0, and the observable error
reporting is unchanged. -/
theorem register_thread_idempotent (n : Nat) (st : ThreadState) :
    register_iter (n + 1) st = register_iter 1 st ∧
    (∃ st', register_thread (register_iter n st) = Except.ok (st', 0)) ∧
    (∀ v raw, reportError (register_iter (n + 1) st) v raw =
      reportError (register_iter 1 st) v raw) := by
  have hstep : ∀ s : ThreadState, register_thread s =
      Except.ok (⟨CallbackId.err_cb⟩, 0) := fun s => rfl
  have h1 : ∀ m s, register_iter (m + 1) s = ⟨CallbackId.err_cb⟩ := by
    intro m s
    simp [register_iter, hstep]
  exact ⟨by rw [h1, h1], ⟨⟨CallbackId.err_cb⟩, hstep _⟩, fun v raw => by rw [h1, h1]⟩

/-- C9: when the walked error stack is empty, `err_callback` still reports
a failure — a `RuntimeError` with the fixed no-information message — and it
returns 1 on every stack. -/
theorem err_callback_empty_runtime_error (v : Bool) :
    err_callback v [] =
      ((ExcClass.builtin PyBuiltin.RuntimeError, "No HDF5 exception information found"), 1) ∧
    (∀ raw, (err_callback v raw).2 = 1) := by
  refine ⟨rfl, fun raw => ?_⟩
  unfold err_callback
  cases h : get_exc_msg v (walk_upward raw) <;> simp [h]

/-- C10 counterexample: on a description with an interior uppercase letter,
the exposed frame description is not the raw text with only its first
character capitalized — Python's `capitalize` also lowercases the rest. -/
theorem desc_not_upperFirst :
    ErrorStackElement.desc
        ⟨ Major.H5E_IO_MAJOR, Minor.H5E_READERROR, "H5FD_read", "aB"⟩ ≠
      upperFirst "aB" := by
  decide

/-- C10 amended: the exposed description of every frame is the raw library
description with its first character uppercased and all remaining
characters lowercased (`str.capitalize`), and the `<description>` part of
the classified message uses exactly this capitalized text. -/
theorem desc_capitalize_spec (e0 : H5E_error_t) (rest : List H5E_error_t) :
    (ErrorStackElement.desc e0).data =
      (e0.desc.data.take 1).map Char.toUpper ++ (e0.desc.data.drop 1).map Char.toLower ∧
    (get_exc_msg false (e0 :: rest)).map Prod.snd = some
      (ErrorStackElement.desc e0 ++ " (" ++ H5Eget_major e0.maj_num ++ ": " ++
        H5Eget_minor e0.min_num ++ ")") := by
  constructor
  · obtain ⟨maj, min, fn, d⟩ := e0
    obtain ⟨l⟩ := d
    cases l with
    | nil => rfl
    | cons c cs => simp [ErrorStackElement.desc, pyCapitalize]
  · simp [get_exc_msg, ErrorStackElement.code_desc]

end H5E

namespace Engine

theorem attr_get_map_replace (a : List (String × AttrValue)) (n : String)
    (v : AttrValue) (h : n ∈ a.map Prod.fst) :
    attr_get (a.map fun p => if p.1 = n then (n, v) else p) n = some v := by
  induction a with
  | nil => simp at h
  | cons p rest ih =>
    simp only [List.map_cons, List.mem_cons] at h
    by_cases hp : p.1 = n
    · rw [List.map_cons, if_pos hp]
      simp [attr_get]
    · rw [List.map_cons, if_neg hp]
      have hmem : n ∈ rest.map Prod.fst := by
        rcases h with h1 | h1
        · exact absurd h1.symm hp
        · exact h1
      simp [attr_get, hp, ih hmem]

theorem attr_get_append_last (a : List (String × AttrValue)) (n : String)
    (v : AttrValue) (h : n ∉ a.map Prod.fst) :
    attr_get (a ++ [(n, v)]) n = some v := by
  induction a with
  | nil => simp [attr_get]
  | cons p rest ih =>
    simp only [List.map_cons, List.mem_cons, not_or] at h
    have hp : p.1 ≠ n := fun he => h.1 he.symm
    simp [attr_get, hp, ih h.2]

theorem map_fst_replace (a : List (String × AttrValue)) (n : String) (v : AttrValue) :
    ((a.map fun p => if p.1 = n then (n, v) else p).map Prod.fst) = a.map Prod.fst := by
  induction a with
  | nil => rfl
  | cons p rest ih =>
    by_cases hp : p.1 = n <;> simp [hp, ih]

/-- C7: creating a group or a dataset under a name already present as a
direct child always fails with a Symbol-table AlreadyExists error, and the
parent's children — in particular the existing child — are unmodified by
the failed call. -/
theorem create_existing_alreadyExists (children : List (String × Obj))
    (name : String) (dtype : DatatypeDesc) (space : DataspaceDesc)
    (filters : List PipelineEntry) (h : name ∈ children.map Prod.fst) :
    create_group children name =
      Except.error ⟨Category.Symbol, some Refinement.AlreadyExists⟩ ∧
    create_dataset children name dtype space filters =
      Except.error ⟨Category.Symbol, some Refinement.AlreadyExists⟩ ∧
    attemptCreateGroup children name = children ∧
    attemptCreateDataset children name dtype space filters = children ∧
    lookupChild (attemptCreateGroup children name) name = lookupChild children name := by
  have hx : ∃ x, (name, x) ∈ children := by
    obtain ⟨⟨k, o⟩, hmem, hk⟩ := List.mem_map.mp h
    cases hk
    exact ⟨o, hmem⟩
  refine ⟨?_, ?_, ?_, ?_, ?_⟩ <;>
    simp [create_group, create_dataset, attemptCreateGroup, attemptCreateDataset, hx]

/-- Witness for C7 on a concrete parent that already has a child "A". -/
theorem create_existing_alreadyExists_witness :
    create_group sampleChildren "A" =
      Except.error ⟨Category.Symbol, some Refinement.AlreadyExists⟩ ∧
    create_dataset sampleChildren "A" (DatatypeDesc.int 4) ⟨[100, 100], [some 100, some 100]⟩ [] =
      Except.error ⟨Category.Symbol, some Refinement.AlreadyExists⟩ ∧
    attemptCreateGroup sampleChildren "A" = sampleChildren ∧
    attemptCreateDataset sampleChildren "A" (DatatypeDesc.int 4) ⟨[100, 100], [some 100, some 100]⟩ [] = sampleChildren ∧
    lookupChild (attemptCreateGroup sampleChildren "A") "A" = lookupChild sampleChildren "A" :=
  create_existing_alreadyExists sampleChildren "A" (DatatypeDesc.int 4)
    ⟨[100, 100], [some 100, some 100]⟩ [] (by simp [sampleChildren])

/-- C8: attribute `set` never fails — in particular never with
AlreadyExists — and on a name that already exists it succeeds and replaces
the stored value in place, leaving the attribute name list unchanged. -/
theorem attr_set_overwrites (a : List (String × AttrValue)) (n : String)
    (v : AttrValue) :
    (∀ e, attr_set a n v ≠ Except.error e) ∧
    (∀ a', attr_set a n v = Except.ok a' →
      attr_get a' n = some v ∧
      (n ∈ a.map Prod.fst → a'.map Prod.fst = a.map Prod.fst)) := by
  constructor
  · intro e
    unfold attr_set
    split <;> simp
  · intro a' ha'
    unfold attr_set at ha'
    split at ha'
    · rename_i hc
      have hmem : n ∈ a.map Prod.fst := by simpa using hc
      obtain rfl : (a.map fun p => if p.1 = n then (n, v) else p) = a' :=
        Except.ok.inj ha'
      exact ⟨attr_get_map_replace a n v hmem, fun _ => map_fst_replace a n v⟩
    · rename_i hc
      have hmem : n ∉ a.map Prod.fst := fun hmem => hc (by simpa using hmem)
      obtain rfl : a ++ [(n, v)] = a' := Except.ok.inj ha'
      exact ⟨attr_get_append_last a n v hmem, fun hx => absurd hx hmem⟩

/-- Witness for C8 at a concrete attribute view with "Name" present. -/
theorem attr_set_overwrites_witness :
    attr_get [("Name", AttrValue.strVal "New Name"), ("Frob Index", AttrValue.intVal 4)] "Name" =
      some (AttrValue.strVal "New Name") ∧
    ([("Name", AttrValue.strVal "New Name"), ("Frob Index", AttrValue.intVal 4)].map Prod.fst) =
      sampleAttrs.map Prod.fst :=
  ((attr_set_overwrites sampleAttrs "Name" (AttrValue.strVal "New Name")).2
      _ rfl).imp id (fun f => f (by decide))

end Engine

namespace Engine

theorem rleEncodePairs_ne_nil (x : Nat) (xs : Buf) : rleEncodePairs (x :: xs) ≠ [] := by
  unfold rleEncodePairs
  rcases rleEncodePairs xs with _ | ⟨⟨n, y⟩, rest⟩
  · simp
  · by_cases hxy : x = y <;> simp [hxy]

theorem rle_pairs_roundtrip (b : Buf) : rleDecodePairs (rleEncodePairs b) = b := by
  induction b with
  | nil => rfl
  | cons x xs ih =>
    unfold rleEncodePairs
    rcases he : rleEncodePairs xs with _ | ⟨⟨n, y⟩, rest⟩
    · have hxs : xs = [] := by
        cases xs with
        | nil => rfl
        | cons z zs => exact absurd he (rleEncodePairs_ne_nil z zs)
      subst hxs
      simp [rleDecodePairs]
    · rw [he] at ih
      by_cases hxy : x = y
      · subst hxy
        simp only [if_pos rfl, rleDecodePairs, List.replicate_succ, List.cons_append] at ih ⊢
        rw [ih]
      · simp only [if_neg hxy, rleDecodePairs, List.replicate_succ, List.replicate_zero,
          List.cons_append, List.nil_append] at ih ⊢
        rw [ih]

theorem rleDecode_flatten (ps : List (Nat × Nat)) :
    rleDecode (flattenPairs ps) = some (rleDecodePairs ps) := by
  induction ps with
  | nil => rfl
  | cons p rest ih =>
    obtain ⟨n, v⟩ := p
    simp [flattenPairs, rleDecode, rleDecodePairs, ih]

theorem rle_roundtrip (b : Buf) : rleDecode (rleEncode b) = some b := by
  rw [rleEncode, rleDecode_flatten, rle_pairs_roundtrip]

theorem fletcher_roundtrip (b : Buf) :
    filterDecode Filter.fletcher32 (filterEncode Filter.fletcher32 b) = some b := by
  simp [filterEncode, filterDecode, List.getLast?_concat, List.dropLast_concat]

theorem szip_roundtrip (mask ppb : Nat) (b : Buf) :
    szipDecode mask ppb (szipEncode mask ppb b) = some b := by
  simp [szipEncode, szipDecode]

theorem getD_map_range (f : Nat → Nat) (m i d : Nat) (h : i < m) :
    ((List.range m).map f).getD i d = f i := by
  rw [List.getD_eq_getElem _ _ (by simpa using h)]
  simp

end Engine

namespace Engine

theorem shuffle_roundtrip (k : Nat) (b : Buf) :
    shuffleDecode k (shuffleEncode k b) = b := by
  by_cases h : 0 < k ∧ b.length % k = 0
  · obtain ⟨hk, hmod⟩ := h
    have henc : shuffleEncode k b =
        (List.range b.length).map
          (fun s => b.getD ((s % (b.length / k)) * k + s / (b.length / k)) 0) := by
      unfold shuffleEncode
      exact if_pos ⟨hk, hmod⟩
    have hlen : (shuffleEncode k b).length = b.length := by
      rw [henc]; simp
    have hdec : shuffleDecode k (shuffleEncode k b) =
        (List.range b.length).map
          (fun t => (shuffleEncode k b).getD ((t % k) * (b.length / k) + t / k) 0) := by
      unfold shuffleDecode
      rw [hlen, if_pos ⟨hk, hmod⟩]
    rw [hdec]
    apply List.ext_getElem
    · simp
    · intro t h1 h2
      have hmK : k * (b.length / k) = b.length :=
        Nat.mul_div_cancel' (Nat.dvd_of_mod_eq_zero hmod)
    
      have hq : 0 < b.length / k := by
        rcases Nat.eq_zero_or_pos (b.length / k) with h0 | h0
        · rw [h0, Nat.mul_zero] at hmK
          omega
        · exact h0
      have hdivt : t / k < b.length / k := by
        rw [Nat.div_lt_iff_lt_mul hk]
        have : b.length / k * k = b.length := by
          rw [Nat.mul_comm]; exact hmK
        rw [this]
        exact h2
      have hmodt : t % k < k := Nat.mod_lt t hk
      have hinner : t % k * (b.length / k) + t / k < b.length := by
        have h3 : (t % k + 1) * (b.length / k) ≤ k * (b.length / k) :=
          Nat.mul_le_mul_right _ (Nat.succ_le_of_lt hmodt)
        calc t % k * (b.length / k) + t / k
            < t % k * (b.length / k) + b.length / k := Nat.add_lt_add_left hdivt _
          _ = (t % k + 1) * (b.length / k) := by ring
          _ ≤ k * (b.length / k) := h3
          _ = b.length := hmK
      simp only [List.getElem_map, List.getElem_range]
      rw [henc, getD_map_range _ _ _ _ hinner]
      have hidxmod : (t % k * (b.length / k) + t / k) % (b.length / k) = t / k := by
        rw [Nat.mul_comm (t % k) (b.length / k), Nat.mul_add_mod]
        exact Nat.mod_eq_of_lt hdivt
      have hidxdiv : (t % k * (b.length / k) + t / k) / (b.length / k) = t % k := by
        rw [Nat.mul_comm (t % k) (b.length / k), Nat.mul_add_div hq,
          Nat.div_eq_of_lt hdivt, Nat.add_zero]
      rw [hidxmod, hidxdiv]
      have htt : t / k * k + t % k = t := by
        rw [Nat.mul_comm]
        exact Nat.div_add_mod t k
      rw [htt, List.getD_eq_getElem _ _ h2]
  · have henc : shuffleEncode k b = b := by
      unfold shuffleEncode
      exact if_neg h
    rw [henc]
    unfold shuffleDecode
    exact if_neg h

theorem filter_roundtrip (f : Filter) (b : Buf) :
    filterDecode f (filterEncode f b) = some b := by
  cases f with
  | passthrough => rfl
  | deflate lvl => simpa [filterEncode, filterDecode] using rle_roundtrip b
  | shuffle k => simp [filterEncode, filterDecode, shuffle_roundtrip]
  | fletcher32 => exact fletcher_roundtrip b
  | szip mask ppb => simpa [filterEncode, filterDecode] using szip_roundtrip mask ppb b

theorem entry_roundtrip (e : PipelineEntry) (b : Buf) :
    entryDecode e (filterEncode e.filter b) = some b := by
  simp [entryDecode, filter_roundtrip]

theorem pipeline_roundtrip (fs : List PipelineEntry) (b : Buf) :
    pipelineDecode fs (pipelineEncode fs b) = some b := by
  induction fs generalizing b with
  | nil => rfl
  | cons e rest ih =>
    have henc : pipelineEncode (e :: rest) b =
        pipelineEncode rest (filterEncode e.filter b) := rfl
    rw [pipelineDecode, henc, ih]
    simpa using entry_roundtrip e b

end Engine

namespace Engine

theorem groupBytes_flatten (w : Nat) (hw : 0 < w) :
    ∀ es : List Elem, elemsWf w es → groupBytes w (flattenElems es) = es := by
  intro es
  induction es with
  | nil =>
    intro _
    unfold groupBytes
    simp [flattenElems]
  | cons e rest ih =>
    intro hwf
    have he : e.length = w := hwf e (List.mem_cons_self e rest)
    have hene : e ≠ [] := by
      intro h0
      rw [h0] at he
      simp at he
      omega
    have hcond : ¬(w = 0 ∨ flattenElems (e :: rest) = []) := by
      push_neg
      refine ⟨by omega, ?_⟩
      simp only [flattenElems]
      intro hc
      exact hene (List.append_eq_nil.mp hc).1
    unfold groupBytes
    rw [dif_neg hcond]
    simp only [flattenElems]
    rw [List.take_left' he, List.drop_left' he]
    exact congrArg (e :: ·) (ih fun x hx => hwf x (List.mem_cons_of_mem e hx))

theorem flatMap_map_eq {α β γ : Type} (l : List α) (f : α → β) (g : β → List γ) :
    (l.map f).flatMap g = l.flatMap (fun a => g (f a)) := by
  induction l with
  | nil => rfl
  | cons x xs ih => simp [List.flatMap_cons, ih]

theorem flatMap_congr_mem {α β : Type} :
    ∀ (l : List α) (f g : α → List β), (∀ a ∈ l, f a = g a) →
      l.flatMap f = l.flatMap g := by
  intro l f g h
  induction l with
  | nil => rfl
  | cons x xs ih =>
    simp only [List.flatMap_cons]
    rw [h x (List.mem_cons_self x xs), ih (fun a ha => h a (List.mem_cons_of_mem x ha))]

theorem length_flatMap_range {α : Type} (g : Nat → List α) (B : Nat)
    (hB : ∀ i, (g i).length = B) : ∀ s : Nat, ((List.range s).flatMap g).length = s * B := by
  intro s
  induction s with
  | zero => simp
  | succ n ih =>
    rw [List.range_succ, List.flatMap_append]
    simp [ih, hB, Nat.succ_mul]

theorem getD_flatMap_range {α : Type} (d : α) (g : Nat → List α) (B : Nat)
    (hB : ∀ i, (g i).length = B) :
    ∀ (s o j : Nat), o < s → j < B →
      ((List.range s).flatMap g).getD (o * B + j) d = (g o).getD j d := by
  intro s
  induction s with
  | zero => intro o j ho _; exact absurd ho (Nat.not_lt_zero o)
  | succ n ih =>
    intro o j ho hj
    rw [List.range_succ, List.flatMap_append]
    by_cases hos : o < n
    · rw [List.getD_append]
      · exact ih o j hos hj
      · rw [length_flatMap_range g B hB n]
        calc o * B + j < o * B + B := by omega
          _ = (o + 1) * B := by ring
          _ ≤ n * B := Nat.mul_le_mul_right _ (by omega)
    · have ho' : o = n := by omega
      subst ho'
      rw [List.getD_append_right]
      · rw [length_flatMap_range g B hB o]
        have hidx : o * B + j - o * B = j := by omega
        simp [hidx]
      · rw [length_flatMap_range g B hB o]
        exact Nat.le_add_right _ _

theorem length_boxCoords : ∀ dims : List Nat, (boxCoords dims).length = dims.prod := by
  intro dims
  induction dims with
  | nil => rfl
  | cons n rest ih =>
    simp only [boxCoords, List.prod_cons]
    exact length_flatMap_range _ rest.prod (fun i => by simp [ih]) n

theorem of_mem_boxCoords : ∀ (dims : List Nat) (c : Coord), c ∈ boxCoords dims →
    c.length = dims.length ∧ List.Forall₂ (· < ·) c dims := by
  intro dims
  induction dims with
  | nil =>
    intro c hc
    simp [boxCoords] at hc
    subst hc
    exact ⟨rfl, List.Forall₂.nil⟩
  | cons n rest ih =>
    intro c hc
    simp only [boxCoords, List.mem_flatMap, List.mem_map, List.mem_range] at hc
    obtain ⟨i, hi, c', hc', rfl⟩ := hc
    obtain ⟨hl, hf⟩ := ih c' hc'
    exact ⟨by simp [hl], List.Forall₂.cons hi hf⟩

theorem linearIndex_lt : ∀ (off dims : Coord), List.Forall₂ (· < ·) off dims →
    linearIndex off dims < dims.prod := by
  intro off dims h
  induction h with
  | nil => simp [linearIndex]
  | @cons o d os ds hod _ ih =>
    simp only [linearIndex, List.prod_cons]
    calc o * ds.prod + linearIndex os ds < o * ds.prod + ds.prod := by omega
      _ = (o + 1) * ds.prod := by ring
      _ ≤ d * ds.prod := Nat.mul_le_mul_right _ (by omega)

theorem boxCoords_map_getD {α : Type} (d : α) :
    ∀ (shape : List Nat) (f : Coord → α) (off : Coord),
      List.Forall₂ (· < ·) off shape →
      ((boxCoords shape).map f).getD (linearIndex off shape) d = f off := by
  intro shape
  induction shape with
  | nil =>
    intro f off h
    cases h
    rfl
  | cons s ss ih =>
    intro f off h
    cases h with
    | @cons o _ os _ ho hos =>
      simp only [boxCoords, List.map_flatMap, linearIndex]
      rw [getD_flatMap_range d _ ss.prod (fun i => by simp [length_boxCoords]) s o
        (linearIndex os ss) ho (linearIndex_lt os ss hos)]
      rw [List.map_map]
      simpa [Function.comp] using ih (fun c => f (o :: c)) os hos

end Engine


namespace Engine

theorem getD_slice {α : Type} (l : List α) (m P k : Nat) (d : α) (hk : k < P) :
    ((l.drop m).take P).getD k d = l.getD (m + k) d := by
  rw [List.getD_eq_getElem?_getD, List.getD_eq_getElem?_getD, List.getElem?_take,
    if_pos hk, List.getElem?_drop]

theorem range_flatMap_slices {α : Type} :
    ∀ (n P : Nat) (l : List α), l.length = n * P →
      (List.range n).flatMap (fun i => (l.drop (i * P)).take P) = l := by
  intro n
  induction n with
  | zero =>
    intro P l hl
    simp only [Nat.zero_mul] at hl
    rw [List.length_eq_zero] at hl
    subst hl
    rfl
  | succ m ih =>
    intro P l hl
    have hdroplen : (l.drop P).length = m * P := by
      rw [List.length_drop, hl, Nat.succ_mul]
      omega
    rw [List.range_succ_eq_map, List.flatMap_cons]
    have h0 : (l.drop (0 * P)).take P = l.take P := by simp
    have hrest : ((List.range m).map Nat.succ).flatMap (fun i => (l.drop (i * P)).take P) =
        (List.range m).flatMap (fun i => ((l.drop P).drop (i * P)).take P) := by
      rw [flatMap_map_eq]
      apply flatMap_congr_mem
      intro i _
      rw [List.drop_drop]
      have hmul : Nat.succ i * P = P + i * P := by
        rw [Nat.succ_mul]
        omega
      rw [hmul]
    rw [h0, hrest, ih P (l.drop P) hdroplen]
    exact List.take_append_drop P l

theorem boxCoords_map_reassemble {α : Type} (d : α) :
    ∀ (dims : List Nat) (l : List α), l.length = dims.prod →
      (boxCoords dims).map (fun off => l.getD (linearIndex off dims) d) = l := by
  intro dims
  induction dims with
  | nil =>
    intro l hl
    cases l with
    | nil => simp at hl
    | cons x xs =>
      cases xs with
      | nil => simp [boxCoords, linearIndex]
      | cons y ys =>
        simp only [List.prod_nil, List.length_cons] at hl
        omega
  | cons n rest ih =>
    intro l hl
    simp only [List.prod_cons] at hl
    simp only [boxCoords, List.map_flatMap]
    have hblocks : ∀ i ∈ List.range n,
        ((boxCoords rest).map (fun c => i :: c)).map
            (fun off => l.getD (linearIndex off (n :: rest)) d) =
          (l.drop (i * rest.prod)).take rest.prod := by
      intro i hi
      have hi' : i < n := List.mem_range.mp hi
      have hslice : ((l.drop (i * rest.prod)).take rest.prod).length = rest.prod := by
        rw [List.length_take, List.length_drop, hl]
        have h1 : rest.prod ≤ n * rest.prod - i * rest.prod := by
          rw [← Nat.sub_mul]
          calc rest.prod = 1 * rest.prod := (Nat.one_mul _).symm
            _ ≤ (n - i) * rest.prod := Nat.mul_le_mul_right _ (by omega)
        omega
      have hih := ih ((l.drop (i * rest.prod)).take rest.prod) hslice
      rw [List.map_map, ← hih]
      apply List.map_congr_left
      intro c hc
      obtain ⟨_, hcf⟩ := of_mem_boxCoords rest c hc
      have hj : linearIndex c rest < rest.prod := linearIndex_lt c rest hcf
      simp only [Function.comp, linearIndex]
      rw [getD_slice l (i * rest.prod) rest.prod (linearIndex c rest) d hj]
    rw [flatMap_congr_mem _ _ _ hblocks]
    exact range_flatMap_slices n rest.prod l hl

theorem zipWith_div_mul_add_mod : ∀ (p s : Coord), p.length = s.length →
    List.zipWith (· + ·) (List.zipWith (· * ·) (chunk_index p s) s) (chunkOffset p s) = p := by
  intro p
  induction p with
  | nil =>
    intro s h
    have : s = [] := List.length_eq_zero.mp h.symm
    subst this
    rfl
  | cons x xs ih =>
    intro s h
    cases s with
    | nil => simp at h
    | cons y ys =>
      simp only [chunk_index, chunkOffset, List.zipWith_cons_cons] at *
      rw [ih ys (by simpa using h)]
      have hx : x / y * y + x % y = x := by
        rw [Nat.mul_comm]
        exact Nat.div_add_mod x y
      rw [hx]

theorem zipWith_add_sub_cancel : ∀ (a b : Coord), a.length = b.length →
    List.zipWith (· - ·) (List.zipWith (· + ·) a b) a = b := by
  intro a
  induction a with
  | nil =>
    intro b h
    have : b = [] := List.length_eq_zero.mp h.symm
    subst this
    rfl
  | cons x xs ih =>
    intro b h
    cases b with
    | nil => simp at h
    | cons y ys =>
      simp only [List.zipWith_cons_cons]
      rw [ih ys (by simpa using h)]
      have hx : x + y - x = y := by omega
      rw [hx]

theorem forall₂_mod_lt : ∀ (p s : Coord), p.length = s.length → (∀ x ∈ s, 0 < x) →
    List.Forall₂ (· < ·) (chunkOffset p s) s := by
  intro p
  induction p with
  | nil =>
    intro s h _
    have : s = [] := List.length_eq_zero.mp h.symm
    subst this
    exact List.Forall₂.nil
  | cons x xs ih =>
    intro s h hpos
    cases s with
    | nil => simp at h
    | cons y ys =>
      simp only [chunkOffset, List.zipWith_cons_cons]
      exact List.Forall₂.cons (Nat.mod_lt x (hpos y (List.mem_cons_self y ys)))
        (ih ys (by simpa using h) (fun z hz => hpos z (List.mem_cons_of_mem y hz)))

theorem coordInRegion_add : ∀ (start count off : Coord), start.length = count.length →
    List.Forall₂ (· < ·) off count →
    coordInRegion start count (List.zipWith (· + ·) start off) = true := by
  intro start
  induction start with
  | nil =>
    intro count off h hf
    have : count = [] := List.length_eq_zero.mp h.symm
    subst this
    cases hf
    rfl
  | cons a as ih =>
    intro count off h hf
    cases count with
    | nil => simp at h
    | cons c cs =>
      cases hf with
      | @cons o _ os _ ho hos =>
        simp only [List.zipWith_cons_cons, coordInRegion, Bool.and_eq_true, decide_eq_true_eq]
        exact ⟨⟨by omega, by omega⟩, ih cs os (by simpa using h) hos⟩

theorem fitsExtent_lengths : ∀ (a c d : Coord), fitsExtent a c d = true →
    a.length = d.length ∧ c.length = d.length := by
  intro a
  induction a with
  | nil =>
    intro c d h
    cases c <;> cases d <;> simp [fitsExtent] at h ⊢
  | cons x xs ih =>
    intro c d h
    cases c with
    | nil => cases d <;> simp [fitsExtent] at h
    | cons y ys =>
      cases d with
      | nil => simp [fitsExtent] at h
      | cons z zs =>
        simp only [fitsExtent, Bool.and_eq_true] at h
        obtain ⟨h1, h2⟩ := ih ys zs h.2
        simp [h1, h2]

end Engine

namespace Engine

theorem getD_pred {α : Type} (P : α → Prop) :
    ∀ (l : List α) (n : Nat) (d : α), (∀ e ∈ l, P e) → P d → P (l.getD n d) := by
  intro l
  induction l with
  | nil =>
    intro n d _ hd
    cases n <;> exact hd
  | cons x xs ih =>
    intro n d hl hd
    cases n with
    | zero => exact hl x (List.mem_cons_self x xs)
    | succ m => exact ih m d (fun e he => hl e (List.mem_cons_of_mem x he)) hd

theorem newChunkElems_wf (ds : Dataset) (sel : Selection) (data : List Elem)
    (ci : Coord) (old : List Elem)
    (hdw : elemsWf (typeSize ds.dtype) data)
    (hfw : ds.fill.length = typeSize ds.dtype)
    (holdw : elemsWf (typeSize ds.dtype) old) :
    elemsWf (typeSize ds.dtype) (newChunkElems ds sel data ci old) := by
  intro e he
  unfold newChunkElems at he
  obtain ⟨off, _, rfl⟩ := List.mem_map.mp he
  by_cases h : inSelection sel
      (List.zipWith (· + ·) (List.zipWith (· * ·) ci ds.chunk_shape) off) = true
  · rw [if_pos h]
    exact getD_pred (fun (x : Elem) => x.length = typeSize ds.dtype) data _ ds.fill hdw hfw
  · rw [if_neg h]
    exact getD_pred (fun (x : Elem) => x.length = typeSize ds.dtype) old _ ds.fill holdw hfw

theorem rmwChunk_ok (ds : Dataset) (sel : Selection) (data : List Elem)
    (store : Coord → Option Buf) (ci : Coord)
    (hfw : ds.fill.length = typeSize ds.dtype) (hok : storeOk ds store) :
    ∃ old, elemsWf (typeSize ds.dtype) old ∧ rmwChunk ds sel data store ci =
      some (Function.update store ci (some (pipelineEncode ds.pipeline
        (flattenElems (newChunkElems ds sel data ci old))))) := by
  unfold rmwChunk
  cases hc : store ci with
  | none =>
    refine ⟨List.replicate ds.chunk_shape.prod ds.fill, ?_, by simp [hc]⟩
    intro e he
    rw [List.eq_of_mem_replicate he]
    exact hfw
  | some enc =>
    obtain ⟨es, hes, hwfes⟩ := hok ci enc hc
    exact ⟨es, hwfes, by simp [hc, hes]⟩

theorem update_storeOk (ds : Dataset) (store : Coord → Option Buf) (ci : Coord)
    (content : List Elem) (hw : 0 < typeSize ds.dtype)
    (hcw : elemsWf (typeSize ds.dtype) content) (hok : storeOk ds store) :
    storeOk ds (Function.update store ci
      (some (pipelineEncode ds.pipeline (flattenElems content)))) := by
  intro ci' enc h
  by_cases hcc : ci' = ci
  · subst hcc
    rw [Function.update_same] at h
    have he := Option.some.inj h
    subst he
    refine ⟨content, ?_, hcw⟩
    rw [pipeline_roundtrip]
    simp [groupBytes_flatten (typeSize ds.dtype) hw content hcw]
  · rw [Function.update_noteq hcc] at h
    exact hok ci' enc h

theorem rmwChunks_ok (ds : Dataset) (sel : Selection) (data : List Elem)
    (hw : 0 < typeSize ds.dtype)
    (hfw : ds.fill.length = typeSize ds.dtype)
    (hdw : elemsWf (typeSize ds.dtype) data) :
    ∀ (L : List Coord) (store : Coord → Option Buf), storeOk ds store →
      ∃ store', rmwChunks ds sel data L store = some store' ∧
        storeOk ds store' ∧
        (∀ ci, ci ∉ L → store' ci = store ci) ∧
        (∀ ci, ci ∈ L → ∃ old, elemsWf (typeSize ds.dtype) old ∧ store' ci =
          some (pipelineEncode ds.pipeline
            (flattenElems (newChunkElems ds sel data ci old)))) := by
  intro L
  induction L with
  | nil =>
    intro store hok
    exact ⟨store, rfl, hok, fun ci _ => rfl, fun ci hc => absurd hc (List.not_mem_nil ci)⟩
  | cons c0 cs ih =>
    intro store hok
    obtain ⟨old0, hold0, h0⟩ := rmwChunk_ok ds sel data store c0 hfw hok
    set store1 := Function.update store c0
      (some (pipelineEncode ds.pipeline
        (flattenElems (newChunkElems ds sel data c0 old0)))) with hs1
    have hok1 : storeOk ds store1 :=
      update_storeOk ds store c0 _ hw
        (newChunkElems_wf ds sel data c0 old0 hdw hfw hold0) hok
    obtain ⟨store', hrun, hok', huntouched, hmem⟩ := ih store1 hok1
    refine ⟨store', ?_, hok', ?_, ?_⟩
    · rw [rmwChunks, h0]
      simpa using hrun
    · intro ci hc
      simp only [List.mem_cons, not_or] at hc
      rw [huntouched ci hc.2, hs1, Function.update_noteq hc.1]
    · intro ci hc
      rcases List.mem_cons.mp hc with rfl | hcs
      · by_cases hmemcs : ci ∈ cs
        · exact hmem ci hmemcs
        · refine ⟨old0, hold0, ?_⟩
          rw [huntouched ci hmemcs, hs1, Function.update_same]
      · exact hmem ci hcs

theorem readCoords_eq_map (ds : Dataset) (f : Coord → Elem) :
    ∀ L : List Coord, (∀ p ∈ L, readElemAt ds p = some (f p)) →
      readCoords ds L = some (L.map f) := by
  intro L
  induction L with
  | nil => intro _; rfl
  | cons p ps ih =>
    intro h
    rw [readCoords, h p (List.mem_cons_self p ps),
      ih (fun q hq => h q (List.mem_cons_of_mem p hq))]
    rfl

end Engine


namespace Engine

/-- C6: the round-trip law over the full (type, dataspace) model: for every
dataset — any element datatype of positive byte width, any multi-dimensional
dataspace, any positive chunk shape of matching rank, any pipeline of
built-in filter entries (including none) — and every hyperslab selection
within the current extent with a matching row-major buffer of well-formed
elements, `write_range` succeeds and `read_range` over the same selection
returns data bit-identical to what was written. -/
theorem write_read_roundtrip (ds : Dataset) (sel : Selection) (data : List Elem)
    (hw : 0 < typeSize ds.dtype)
    (hfw : ds.fill.length = typeSize ds.dtype)
    (hdw : elemsWf (typeSize ds.dtype) data)
    (hrank : ds.chunk_shape.length = ds.space.current_dims.length)
    (hcspos : ∀ s ∈ ds.chunk_shape, 0 < s)
    (hwf : storeOk ds ds.chunks)
    (hsel : withinExtent ds.space sel = true)
    (hdata : data.length = sel.count.prod) :
    ∃ ds', write_range ds sel data = Except.ok ds' ∧
      read_range ds' sel = Except.ok data := by
  obtain ⟨hstart, hcount⟩ :=
    fitsExtent_lengths sel.start sel.count ds.space.current_dims hsel
  obtain ⟨store', hrun, _, _, hmem⟩ :=
    rmwChunks_ok ds sel data hw hfw hdw (affectedChunks ds sel) ds.chunks hwf
  refine ⟨{ ds with chunks := store' }, ?_, ?_⟩
  · unfold write_range
    rw [if_pos hsel, if_pos hdata, hrun]
  · have hreadel : ∀ p ∈ selCoords sel,
        readElemAt { ds with chunks := store' } p =
          some (data.getD (selIndex sel p) ds.fill) := by
      intro p hpmem
      obtain ⟨off0, hoff0mem, rfl⟩ := List.mem_map.mp hpmem
      obtain ⟨hoff0len, hoff0lt⟩ := of_mem_boxCoords sel.count off0 hoff0mem
      have hplen : (List.zipWith (· + ·) sel.start off0).length = ds.chunk_shape.length := by
        simp only [List.length_zipWith, hoff0len, hstart, hcount, hrank]
        omega
      have hpmem' : List.zipWith (· + ·) sel.start off0 ∈ selCoords sel := hpmem
      have hcimem :
          chunk_index (List.zipWith (· + ·) sel.start off0) ds.chunk_shape ∈
            affectedChunks ds sel :=
        List.mem_map_of_mem _ hpmem'
      obtain ⟨old, holdw, hsto⟩ := hmem _ hcimem
      have hcw := newChunkElems_wf ds sel data
        (chunk_index (List.zipWith (· + ·) sel.start off0) ds.chunk_shape) old hdw hfw holdw
      have hce : chunkElems { ds with chunks := store' }
          (chunk_index (List.zipWith (· + ·) sel.start off0) ds.chunk_shape) =
          some (newChunkElems ds sel data
            (chunk_index (List.zipWith (· + ·) sel.start off0) ds.chunk_shape) old) := by
        unfold chunkElems
        show (match store' (chunk_index (List.zipWith (· + ·) sel.start off0) ds.chunk_shape) with
          | none => some (List.replicate ds.chunk_shape.prod ds.fill)
          | some enc => (pipelineDecode ds.pipeline enc).map (groupBytes (typeSize ds.dtype))) = _
        rw [hsto]
        simp only [pipeline_roundtrip, Option.map_some']
        rw [groupBytes_flatten (typeSize ds.dtype) hw _ hcw]
      show (chunkElems { ds with chunks := store' }
          (chunk_index (List.zipWith (· + ·) sel.start off0) ds.chunk_shape)).map
          (fun es => es.getD
            (linearIndex (chunkOffset (List.zipWith (· + ·) sel.start off0) ds.chunk_shape)
              ds.chunk_shape) ds.fill) =
        some (data.getD (selIndex sel (List.zipWith (· + ·) sel.start off0)) ds.fill)
      rw [hce]
      simp only [Option.map_some']
      have hofflt : List.Forall₂ (· < ·)
          (chunkOffset (List.zipWith (· + ·) sel.start off0) ds.chunk_shape)
          ds.chunk_shape :=
        forall₂_mod_lt _ ds.chunk_shape hplen hcspos
      unfold newChunkElems
      rw [boxCoords_map_getD ds.fill ds.chunk_shape _ _ hofflt]
      rw [zipWith_div_mul_add_mod _ ds.chunk_shape hplen]
      have hpin : inSelection sel (List.zipWith (· + ·) sel.start off0) = true :=
        coordInRegion_add sel.start sel.count off0 (hstart.trans hcount.symm) hoff0lt
      rw [if_pos hpin]
    have hread : readCoords { ds with chunks := store' } (selCoords sel) =
        some ((selCoords sel).map (fun p => data.getD (selIndex sel p) ds.fill)) :=
      readCoords_eq_map _ _ (selCoords sel) hreadel
    have hmapdata :
        (selCoords sel).map (fun p => data.getD (selIndex sel p) ds.fill) = data := by
      unfold selCoords
      rw [List.map_map]
      have hcongr : ∀ off ∈ boxCoords sel.count,
          ((fun p => data.getD (selIndex sel p) ds.fill) ∘
            (fun off => List.zipWith (· + ·) sel.start off)) off =
          data.getD (linearIndex off sel.count) ds.fill := by
        intro off hoffmem
        obtain ⟨hofflen, _⟩ := of_mem_boxCoords sel.count off hoffmem
        simp only [Function.comp, selIndex]
        rw [zipWith_add_sub_cancel sel.start off (by omega)]
      rw [List.map_congr_left hcongr]
      exact boxCoords_map_reassemble ds.fill sel.count data hdata
    unfold read_range
    show (if withinExtent ds.space sel = true then
        match readCoords { ds with chunks := store' } (selCoords sel) with
        | some es => Except.ok es
        | none => Except.error (ErrorKind.mk Category.IOCategory (some Refinement.IOFailure))
      else Except.error (ErrorKind.mk Category.Dataspace none)) = Except.ok data
    rw [if_pos hsel, hread, hmapdata]

/-- Witness for C6 at rank 2: a fresh 4×6 dataset of two-byte integers with
chunk shape 2×3 and every built-in filter stacked in the pipeline; writing
six elements across four chunks at start (1,2) and reading the same
hyperslab returns them bit-identically. -/
theorem write_read_roundtrip_witness :
    ∃ ds', write_range sampleDataset ⟨[1, 2], [2, 3]⟩ sampleData = Except.ok ds' ∧
      read_range ds' ⟨[1, 2], [2, 3]⟩ = Except.ok sampleData :=
  write_read_roundtrip sampleDataset ⟨[1, 2], [2, 3]⟩ sampleData
    (by decide) (by decide)
    (fun e he => by
      simp only [sampleData, List.mem_cons, List.not_mem_nil, or_false] at he
      rcases he with rfl | rfl | rfl | rfl | rfl | rfl <;> rfl)
    (by decide) (by decide)
    (fun ci enc h => Option.noConfusion h)
    (by decide) (by decide)

end Engine
